import Mathlib

/-!
Shallow embedding of the tiny-audio-player core (Rust) in Lean 4.

Modelled source files:
- src/audio/audio_player.rs : `AudioPlayer`, `CurrentSoundData`, the waveform
  decode loop `try_generating_wave_for_sound` (window size 50);
- src/audio/sound_data.rs : the same decode loop with window size 20;
- src/layouts/main_layout.rs : `MainLayout`, `MainLayoutMessage`, `update`,
  `clear_tracklist`, `try_importing_track_from_path`.

Modelling conventions:
- Rust `f64`/`f32` values (positions, durations, rates, volumes, samples) are
  embedded as rationals ℚ; the claims under study are about control flow and
  exact arithmetic shape, not float rounding.
- A Rust panic (out-of-bounds `Vec` indexing) is embedded as `Option.none`:
  `update` returns `Option MainLayout`, `none` meaning the handler panics.
- The kira audio backend is abstracted: a "library" function
  `lib : String → ℕ` gives the duration, in nanoseconds, of the stream that
  `StreamingSoundData::from_file` would open for a path; `duration.as_secs()`
  is nanoseconds divided by 10^9 (truncating Nat division, as in Rust).
  A fresh kira stream starts with playback rate 1, unpaused, at position 0.
-/

namespace TinyAudioPlayer

/-- A playlist entry (struct `TrackInfo` in main_layout.rs). -/
structure TrackInfo where
  name : String
  path : String
deriving Repr, DecidableEq

/-- The observable state of a kira `StreamingSoundHandle` that the engine
touches: the path it plays, the per-stream playback rate (which the backend
resets to 1 for every new stream), the paused flag and the position. -/
structure StreamingSoundHandle where
  path : String
  playback_rate : ℚ
  paused : Bool
  position : ℚ
deriving Repr, DecidableEq

/-- `CurrentSoundData` of audio_player.rs: the live handle plus the stored
duration (the analyzer thread and stop signal are concurrency plumbing and
carry no state the claims mention). -/
structure CurrentSoundData where
  handle : StreamingSoundHandle
  duration : ℚ
deriving Repr, DecidableEq

/-- `AudioPlayer` of audio_player.rs (the `audio_manager` field is the
abstracted output backend). -/
structure AudioPlayer where
  current_sound : Option CurrentSoundData
  playback_rate : ℚ
  volume : ℚ
deriving Repr, DecidableEq

/-- `AudioPlayer::new`: no sound, rate 1.0, volume 1.0. -/
def AudioPlayer.new : AudioPlayer :=
  { current_sound := none, playback_rate := 1, volume := 1 }

/-- `AudioPlayer::set_playback_rate`: persist the rate on the engine and, if a
sound is active, apply it to the handle. -/
def set_playback_rate (p : AudioPlayer) (rate : ℚ) : AudioPlayer :=
  match p.current_sound with
  | none => { p with playback_rate := rate }
  | some s =>
      { p with
        playback_rate := rate
        current_sound := some { s with handle := { s.handle with playback_rate := rate } } }

/-- `AudioPlayer::get_playback_rate`. -/
def get_playback_rate (p : AudioPlayer) : ℚ :=
  p.playback_rate

/-- `AudioPlayer::set_volume`: persists the volume (the main-track call on the
backend is external). -/
def set_volume (p : AudioPlayer) (volume : ℚ) : AudioPlayer :=
  { p with volume := volume }

/-- `AudioPlayer::get_volume`. -/
def get_volume (p : AudioPlayer) : ℚ :=
  p.volume

/-- `AudioPlayer::play`: stop the old handle if any, open the stream for
`path`, store `duration.as_secs()` (whole seconds, truncated) as `f64`, then
re-apply the engine's persisted playback rate because kira sets it per-sound. -/
def play (lib : String → ℕ) (p : AudioPlayer) (path : String) : AudioPlayer :=
  let secs : ℕ := lib path / 1000000000
  let p1 : AudioPlayer :=
    { p with
      current_sound := some
        { handle := { path := path, playback_rate := 1, paused := false, position := 0 }
          duration := (secs : ℚ) } }
  set_playback_rate p1 p1.playback_rate

/-- `AudioPlayer::get_current_sound_position`: 0.0 when no sound. -/
def get_current_sound_position (p : AudioPlayer) : ℚ :=
  match p.current_sound with
  | none => 0
  | some s => s.handle.position

/-- `AudioPlayer::get_current_sound_duration`: 0.0 when no sound. -/
def get_current_sound_duration (p : AudioPlayer) : ℚ :=
  match p.current_sound with
  | none => 0
  | some s => s.duration

/-- `AudioPlayer::set_current_sound_pos`: seek the handle; no-op without a
sound. -/
def set_current_sound_pos (p : AudioPlayer) (pos : ℚ) : AudioPlayer :=
  match p.current_sound with
  | none => p
  | some s => { p with current_sound := some { s with handle := { s.handle with position := pos } } }

/-- `AudioPlayer::stop`: stop the handle and drop the sound data; no-op
without a sound. -/
def stop (p : AudioPlayer) : AudioPlayer :=
  match p.current_sound with
  | none => p
  | some _ => { p with current_sound := none }

/-- `AudioPlayer::pause_resume`: toggle the paused state of the handle; no-op
without a sound. -/
def pause_resume (p : AudioPlayer) : AudioPlayer :=
  match p.current_sound with
  | none => p
  | some s =>
      if s.handle.paused then
        { p with current_sound := some { s with handle := { s.handle with paused := false } } }
      else
        { p with current_sound := some { s with handle := { s.handle with paused := true } } }

/-- `AudioPlayer::is_format_supported`. -/
def is_format_supported (ext : String) : Bool :=
  ext == "mp3" || ext == "wav" || ext == "ogg" || ext == "flac"

/-- What `try_importing_track_from_path` inspects about a filesystem path:
whether it is a regular file, its lowercase-free extension (if any), its stem
and its display form. -/
structure FileMeta where
  is_file : Bool
  file_ext : Option String
  stem : String
  display : String
deriving Repr, DecidableEq

/-- `MainLayout` of main_layout.rs (the view-only fields are omitted). -/
structure MainLayout where
  current_track_index : Option ℕ
  tracklist : List TrackInfo
  audio_player : AudioPlayer
deriving Repr, DecidableEq

/-- The messages of `MainLayoutMessage` whose handlers are pure playlist /
engine logic. `AddMusic`, `OpenTracklist` and `SaveTracklist` open native
dialogs and are not modelled; `FileDropped` carries the inspected metadata of
the dropped path. -/
inductive MainLayoutMessage where
  | VolumeChanged (v : ℚ)
  | PlaybackRateChanged (r : ℚ)
  | PlayPauseTrack (i : ℕ)
  | PlayTrackFromStart (i : ℕ)
  | DeleteTrack (i : ℕ)
  | ChangeTrackPos (portion : ℚ)
  | RedrawTrackPos
  | FileDropped (f : FileMeta)
deriving Repr, DecidableEq

/-- `MainLayout::clear_tracklist`: stop playback, clear the current index,
empty the list. -/
def clear_tracklist (m : MainLayout) : MainLayout :=
  { m with
    audio_player := stop m.audio_player
    current_track_index := none
    tracklist := [] }

/-- `MainLayout::try_importing_track_from_path`: ignore non-files, paths
without an extension and unsupported extensions; otherwise append a track. -/
def try_importing_track_from_path (m : MainLayout) (f : FileMeta) : MainLayout :=
  if !f.is_file then m
  else
    match f.file_ext with
    | none => m
    | some ext =>
        if is_format_supported ext then
          { m with tracklist := m.tracklist ++ [{ name := f.stem, path := f.display }] }
        else m

/-- `MainLayout::update` on the modelled messages. `none` means the Rust
handler panics (out-of-bounds `Vec` indexing). -/
def update (lib : String → ℕ) (m : MainLayout) (msg : MainLayoutMessage) : Option MainLayout :=
  match msg with
  | .VolumeChanged v => some { m with audio_player := set_volume m.audio_player v }
  | .PlaybackRateChanged r => some { m with audio_player := set_playback_rate m.audio_player r }
  | .PlayTrackFromStart i =>
      match m.current_track_index with
      | some c =>
          if c = i then
            -- Just restart: stop, then play self.tracklist[current_index].
            match m.tracklist[c]? with
            | some t => some { m with audio_player := play lib (stop m.audio_player) t.path }
            | none => none
          else
            match m.tracklist[i]? with
            | some t =>
                some { m with current_track_index := some i
                              audio_player := play lib m.audio_player t.path }
            | none => none
      | none =>
          match m.tracklist[i]? with
          | some t =>
              some { m with current_track_index := some i
                            audio_player := play lib m.audio_player t.path }
          | none => none
  | .PlayPauseTrack i =>
      match m.current_track_index with
      | some c =>
          if c = i then
            some { m with audio_player := pause_resume m.audio_player }
          else
            match m.tracklist[i]? with
            | some t =>
                some { m with current_track_index := some i
                              audio_player := play lib m.audio_player t.path }
            | none => none
      | none =>
          match m.tracklist[i]? with
          | some t =>
              some { m with current_track_index := some i
                            audio_player := play lib m.audio_player t.path }
          | none => none
  | .DeleteTrack i =>
      -- Clear current index (and stop) if this is the track being played.
      let m1 : MainLayout :=
        match m.current_track_index with
        | some c =>
            if c = i then
              { m with current_track_index := none, audio_player := stop m.audio_player }
            else m
        | none => m
      -- Remove from list; Vec::remove panics when i is out of bounds.
      if i < m1.tracklist.length then
        let m2 : MainLayout := { m1 with tracklist := m1.tracklist.eraseIdx i }
        match m2.current_track_index with
        | some c =>
            if m2.tracklist.length ≤ c then
              some { m2 with current_track_index := some (c - 1) }
            else some m2
        | none => some m2
      else none
  | .ChangeTrackPos portion =>
      some { m with
        audio_player :=
          set_current_sound_pos m.audio_player
            (portion * get_current_sound_duration m.audio_player) }
  | .RedrawTrackPos =>
      match m.current_track_index with
      | none => some m
      | some i =>
          if get_current_sound_position m.audio_player + 1/100
              ≥ get_current_sound_duration m.audio_player then
            -- Switch to the next track (wraparound) and play it.
            let i1 : ℕ := if i + 1 = m.tracklist.length then 0 else i + 1
            match m.tracklist[i1]? with
            | some t =>
                some { m with current_track_index := some i1
                              audio_player := play lib m.audio_player t.path }
            | none => none
          else some m
  | .FileDropped f => some (try_importing_track_from_path m f)

/-- The tracklist invariant of the spec: the current index, when present, is
strictly below the tracklist length. -/
def layoutInv (m : MainLayout) : Prop :=
  ∀ i, m.current_track_index = some i → i < m.tracklist.length

/-! ### The waveform analyzer decode loop

`try_generating_wave_for_sound` (audio_player.rs lines 142-228, and the same
loop in sound_data.rs). The symphonia collaborator is abstracted as a list of
stream events: what `format.next_packet()` and `decoder.decode(&packet)`
return on each iteration. -/

/-- Result of `decoder.decode(&packet)` for one packet: decoded samples, a
recoverable per-packet error (`Error::IoError` or `Error::DecodeError`, both
skipped with `continue`), or any other error (the catch-all arm, `return`). -/
inductive DecodeResult where
  | decoded (samples : List ℚ)
  | ioErr
  | decodeErr
  | fatalErr
deriving Repr, DecidableEq

/-- Result of `format.next_packet()` for one loop iteration: a packet tagged
with its track id, `Error::ResetRequired` (`return`), an
`ErrorKind::UnexpectedEof` I/O error (`break`, normal end of stream), any
other I/O error (`break`), or any other error (`break`). -/
inductive StreamEvent where
  | packet (track_id : ℕ) (res : DecodeResult)
  | resetRequired
  | eof
  | ioErr
  | otherErr
deriving Repr, DecidableEq

/-- Window size `sample_count_to_average` in audio_player.rs. -/
def sample_count_to_average : ℕ := 50

/-- Window size `packet_count_to_average` in sound_data.rs. -/
def packet_count_to_average : ℕ := 20

/-- The mean absolute sample value of one decoded packet
(`mean_value = Σ |sample| / read_samples.len()`). -/
def meanAbs (samples : List ℚ) : ℚ :=
  (samples.map (fun s => |s|)).sum / samples.length

/-- The mean of the window of per-packet means
(`average_value = Σ value / samples_to_average.len()`). -/
def winMean (win : List ℚ) : ℚ :=
  win.sum / win.length

/-- Rust's saturating float-to-`u8` cast `x as u8`: truncate toward zero,
clamp into `[0, 255]`. -/
def satCastU8 (q : ℚ) : ℕ :=
  if q ≤ 0 then 0 else min 255 ⌊q⌋.toNat

/-- The decode loop of `try_generating_wave_for_sound`, parameterized by the
window size `W` and the selected `track_id`. State: `win` is the
`samples_to_average` window, `wave` the shared waveform buffer. Terminal
events return the buffer as produced so far; a full window is averaged,
cleared, and quantized with `(average * 2.0 * u8::MAX as f32) as u8`. -/
def decodeLoop (W track_id : ℕ) : List StreamEvent → List ℚ → List ℕ → List ℕ
  | [], _, wave => wave
  | .resetRequired :: _, _, wave => wave
  | .eof :: _, _, wave => wave
  | .ioErr :: _, _, wave => wave
  | .otherErr :: _, _, wave => wave
  | .packet tid res :: rest, win, wave =>
      if tid ≠ track_id then decodeLoop W track_id rest win wave
      else
        match res with
        | .ioErr => decodeLoop W track_id rest win wave
        | .decodeErr => decodeLoop W track_id rest win wave
        | .fatalErr => wave
        | .decoded samples =>
            let win1 := win ++ [meanAbs samples]
            if W ≤ win1.length then
              decodeLoop W track_id rest [] (wave ++ [satCastU8 (winMean win1 * 2 * 255)])
            else decodeLoop W track_id rest win1 wave

/-- Swap the entries at positions `i` and `j` of a list (no-op when either
index is out of range). -/
def listSwap {α : Type} (l : List α) (i j : ℕ) : List α :=
  match l[i]?, l[j]? with
  | some a, some b => (l.set i b).set j a
  | _, _ => l

/-- Modelled from the spec: `move_up(i)` is absent from the source under
src/ (no message or handler implements reordering). Spec §4.3: swap entry `i`
with its upper neighbor, with wraparound (index 0 swaps with the last entry);
no-op when the list has at most one entry; the current index follows the
moved-from entry to the target, and the target's index follows to the vacated
slot. -/
def move_track_up (ts : List TrackInfo) (cur : Option ℕ) (i : ℕ) :
    List TrackInfo × Option ℕ :=
  if ts.length ≤ 1 then (ts, cur)
  else
    let j := if i = 0 then ts.length - 1 else i - 1
    (listSwap ts i j,
      if cur = some i then some j else if cur = some j then some i else cur)

/-- Modelled from the spec: `move_down(i)` is absent from the source under
src/. Spec §4.3: swap entry `i` with its lower neighbor, with wraparound (the
last index swaps with index 0); no-op when the list has at most one entry;
the current index follows the same way as for `move_up`. -/
def move_track_down (ts : List TrackInfo) (cur : Option ℕ) (i : ℕ) :
    List TrackInfo × Option ℕ :=
  if ts.length ≤ 1 then (ts, cur)
  else
    let j := if i + 1 = ts.length then 0 else i + 1
    (listSwap ts i j,
      if cur = some i then some j else if cur = some j then some i else cur)

/-! ### Helper lemmas -/

/-- After `play`, the session carries the given path, the engine's persisted
rate, and the whole-second truncated duration. -/
lemma play_current_sound (lib : String → ℕ) (p : AudioPlayer) (path : String) :
    (play lib p path).current_sound = some
      { handle := { path := path, playback_rate := p.playback_rate,
                    paused := false, position := 0 }
        duration := ((lib path / 1000000000 : ℕ) : ℚ) } := by
  simp [play, set_playback_rate]

/-- `play` leaves the engine's persisted rate unchanged. -/
lemma play_playback_rate (lib : String → ℕ) (p : AudioPlayer) (path : String) :
    (play lib p path).playback_rate = p.playback_rate := by
  simp [play, set_playback_rate]

/-- `stop` always leaves no current sound. -/
lemma stop_current_sound (p : AudioPlayer) : (stop p).current_sound = none := by
  cases h : p.current_sound <;> simp [stop, h]

/-! ### C1 — index renormalization on DeleteTrack -/

/-- C1, counterexample. Tracklist `[a, b, c, d]` with current index 2;
deleting index 0 (which is `< 2`) leaves the current index at 2 — the claim
demands that it be decremented to 1. -/
theorem delete_track_claim_counterexample :
    Option.map (fun m => m.current_track_index)
      (update (fun _ => 0)
        { current_track_index := some 2
          tracklist := [⟨"a", "a.mp3"⟩, ⟨"b", "b.mp3"⟩, ⟨"c", "c.mp3"⟩, ⟨"d", "d.mp3"⟩]
          audio_player := AudioPlayer.new }
        (.DeleteTrack 0))
      = some (some 2) := by
  decide

/-- Full characterization of the `DeleteTrack` handler at a valid index. -/
lemma delete_track_characterization (lib : String → ℕ) (m : MainLayout) (k : ℕ)
    (hk : k < m.tracklist.length) :
    ∃ m', update lib m (.DeleteTrack k) = some m' ∧
      m'.tracklist = m.tracklist.eraseIdx k ∧
      (m.current_track_index = some k →
        m'.current_track_index = none ∧ m'.audio_player.current_sound = none) ∧
      (∀ c, m.current_track_index = some c → c ≠ k →
        m'.audio_player = m.audio_player ∧
        m'.current_track_index =
          some (if m.tracklist.length - 1 ≤ c then c - 1 else c)) ∧
      (m.current_track_index = none →
        m'.current_track_index = none ∧ m'.audio_player = m.audio_player) := by
  cases hcur : m.current_track_index with
  | none =>
      refine ⟨⟨none, m.tracklist.eraseIdx k, m.audio_player⟩, ?_, rfl, ?_, ?_, ?_⟩
      · simp [update, hcur, hk]
      · exact fun h => nomatch h
      · exact fun c hc => nomatch hc
      · exact fun _ => ⟨rfl, rfl⟩
  | some c =>
      by_cases hck : c = k
      · refine ⟨⟨none, m.tracklist.eraseIdx k, stop m.audio_player⟩, ?_, rfl, ?_, ?_, ?_⟩
        · simp [update, hcur, hck, hk]
        · exact fun _ => ⟨rfl, stop_current_sound m.audio_player⟩
        · intro c2 hc2 hne
          injection hc2 with h2
          subst h2
          exact absurd hck hne
        · exact fun h => nomatch h
      · by_cases hlast : m.tracklist.length - 1 ≤ c
        · refine ⟨⟨some (c - 1), m.tracklist.eraseIdx k, m.audio_player⟩, ?_, rfl, ?_, ?_, ?_⟩
          · simp [update, hcur, hck, hk, List.length_eraseIdx, hlast]
          · intro h; injection h with h2; exact absurd h2 hck
          · intro c2 hc2 _
            injection hc2 with h2
            subst h2
            exact ⟨rfl, by rw [if_pos hlast]⟩
          · exact fun h => nomatch h
        · refine ⟨⟨some c, m.tracklist.eraseIdx k, m.audio_player⟩, ?_, rfl, ?_, ?_, ?_⟩
          · simp [update, hcur, hck, hk, List.length_eraseIdx, hlast]
          · intro h; injection h with h2; exact absurd h2 hck
          · intro c2 hc2 _
            injection hc2 with h2
            subst h2
            exact ⟨rfl, by rw [if_neg hlast]⟩
          · exact fun h => nomatch h

/-- C1, amended. Removing the entry at a valid index `k` behaves as follows:
if `k` equals the current index, playback stops and the current index becomes
`None`; otherwise the entry is removed and the current index is decremented by
1 exactly when it is not below the shortened length (which, under the length
invariant, happens only when the current entry was the last one); in every
other case — including `k` below a non-last current index — it is unchanged. -/
theorem delete_track_renormalization (lib : String → ℕ) (m : MainLayout) (k : ℕ)
    (hk : k < m.tracklist.length) :
    ∃ m', update lib m (.DeleteTrack k) = some m' ∧
      m'.tracklist = m.tracklist.eraseIdx k ∧
      (m.current_track_index = some k →
        m'.current_track_index = none ∧ m'.audio_player.current_sound = none) ∧
      (∀ c, m.current_track_index = some c → c ≠ k →
        m'.audio_player = m.audio_player ∧
        m'.current_track_index =
          some (if m.tracklist.length - 1 ≤ c then c - 1 else c)) ∧
      (m.current_track_index = none →
        m'.current_track_index = none ∧ m'.audio_player = m.audio_player) :=
  delete_track_characterization lib m k hk

/-- C1 witness: tracklist `[a, b]`, current index 1, delete index 0: the
current entry was the last one, so the index is decremented to 0. -/
theorem delete_track_renormalization_witness :
    (0 < ([⟨"a", "a.mp3"⟩, ⟨"b", "b.mp3"⟩] : List TrackInfo).length) ∧
    ∃ m', update (fun _ => 0)
        { current_track_index := some 1
          tracklist := [⟨"a", "a.mp3"⟩, ⟨"b", "b.mp3"⟩]
          audio_player := AudioPlayer.new } (.DeleteTrack 0) = some m' ∧
      m'.tracklist = ([⟨"a", "a.mp3"⟩, ⟨"b", "b.mp3"⟩] : List TrackInfo).eraseIdx 0 ∧
      ((some 1 : Option ℕ) = some 0 →
        m'.current_track_index = none ∧ m'.audio_player.current_sound = none) ∧
      (∀ c, (some 1 : Option ℕ) = some c → c ≠ 0 →
        m'.audio_player = AudioPlayer.new ∧
        m'.current_track_index =
          some (if ([⟨"a", "a.mp3"⟩, ⟨"b", "b.mp3"⟩] : List TrackInfo).length - 1 ≤ c
            then c - 1 else c)) ∧
      ((some 1 : Option ℕ) = none →
        m'.current_track_index = none ∧ m'.audio_player = AudioPlayer.new) :=
  ⟨by decide,
    delete_track_renormalization (fun _ => 0)
      { current_track_index := some 1
        tracklist := [⟨"a", "a.mp3"⟩, ⟨"b", "b.mp3"⟩]
        audio_player := AudioPlayer.new } 0 (by decide)⟩

/-! ### C2 — out-of-range play request -/

/-- C2, counterexample. On an empty tracklist, `PlayTrackFromStart 0` is not
a silent no-op: the handler indexes `self.tracklist[0]` without a bounds
check and panics (modelled as `none`). -/
theorem play_out_of_range_counterexample :
    update (fun _ => 0)
      { current_track_index := none, tracklist := [], audio_player := AudioPlayer.new }
      (.PlayTrackFromStart 0) = none := by
  decide

/-- C2, amended. There is no bounds check: for any index `i` outside the
tracklist, `PlayTrackFromStart i` panics on the out-of-range `Vec` access,
and so does `PlayPauseTrack i` — except when `i` equals the current index, in
which case `PlayPauseTrack` only toggles pause without touching the list. -/
theorem play_out_of_range_panics (lib : String → ℕ) (m : MainLayout) (i : ℕ)
    (h : m.tracklist.length ≤ i) :
    update lib m (.PlayTrackFromStart i) = none ∧
    (m.current_track_index ≠ some i → update lib m (.PlayPauseTrack i) = none) ∧
    (m.current_track_index = some i →
      update lib m (.PlayPauseTrack i) =
        some { m with audio_player := pause_resume m.audio_player }) := by
  have hnone : m.tracklist[i]? = none := List.getElem?_eq_none h
  refine ⟨?_, ?_, ?_⟩
  · cases hcur : m.current_track_index with
    | none => simp [update, hcur, hnone]
    | some c =>
        by_cases hci : c = i
        · subst hci
          simp [update, hcur, hnone]
        · simp [update, hcur, hci, hnone]
  · intro hne
    cases hcur : m.current_track_index with
    | none => simp [update, hcur, hnone]
    | some c =>
        have hci : ¬c = i := fun hc => hne (hcur.trans (by rw [hc]))
        simp [update, hcur, hci, hnone]
  · intro hcur
    simp [update, hcur]

/-- C2 witness: tracklist `[a]`, index 1 out of range, no current track. -/
theorem play_out_of_range_panics_witness :
    (([⟨"a", "a.mp3"⟩] : List TrackInfo).length ≤ 1) ∧
    (update (fun _ => 0)
        { current_track_index := none
          tracklist := [⟨"a", "a.mp3"⟩]
          audio_player := AudioPlayer.new } (.PlayTrackFromStart 1) = none ∧
      ((none : Option ℕ) ≠ some 1 →
        update (fun _ => 0)
          { current_track_index := none
            tracklist := [⟨"a", "a.mp3"⟩]
            audio_player := AudioPlayer.new } (.PlayPauseTrack 1) = none) ∧
      ((none : Option ℕ) = some 1 →
        update (fun _ => 0)
          { current_track_index := none
            tracklist := [⟨"a", "a.mp3"⟩]
            audio_player := AudioPlayer.new } (.PlayPauseTrack 1) =
          some { current_track_index := none
                 tracklist := [⟨"a", "a.mp3"⟩]
                 audio_player := pause_resume AudioPlayer.new })) :=
  ⟨by decide,
    play_out_of_range_panics (fun _ => 0)
      { current_track_index := none
        tracklist := [⟨"a", "a.mp3"⟩]
        audio_player := AudioPlayer.new } 1 (by decide)⟩

/-! ### C6 — current-index length invariant under structural mutations -/

/-- C6. When the current index is present it is below the tracklist length,
and each structural tracklist mutation in the source — importing a track
(add), `DeleteTrack` (remove), and `clear_tracklist` — either preserves this
invariant or clears the current index to `None` (clear always does the
latter; a non-panicking delete and an import preserve it). -/
theorem tracklist_index_invariant (m : MainLayout) (hm : layoutInv m) :
    layoutInv (clear_tracklist m) ∧
    (clear_tracklist m).current_track_index = none ∧
    (∀ f, layoutInv (try_importing_track_from_path m f)) ∧
    (∀ lib k m', update lib m (.DeleteTrack k) = some m' → layoutInv m') := by
  refine ⟨?_, rfl, ?_, ?_⟩
  · intro i h
    exact nomatch h
  · intro f i h
    unfold try_importing_track_from_path at h ⊢
    by_cases hf : f.is_file
    · cases hext : f.file_ext with
      | none =>
          simp only [hf, hext, Bool.not_true, Bool.false_eq_true, if_false] at h ⊢
          exact hm i h
      | some ext =>
          by_cases hsup : is_format_supported ext
          · simp only [hf, hext, hsup, Bool.not_true, Bool.false_eq_true, if_false,
              if_true] at h ⊢
            simp only [List.length_append, List.length_cons, List.length_nil]
            exact Nat.lt_succ_of_lt (hm i h)
          · simp only [hf, hext, hsup, Bool.not_true, Bool.false_eq_true, if_false] at h ⊢
            exact hm i h
    · simp only [Bool.not_eq_true'] at hf
      simp only [hf, Bool.not_false, if_true] at h ⊢
      exact hm i h
  · intro lib k m' hupd
    by_cases hk : k < m.tracklist.length
    · obtain ⟨m2, hm2, htl, hcurK, hcurNe, hcurNone⟩ :=
        delete_track_characterization lib m k hk
      rw [hupd] at hm2
      injection hm2 with hm2
      subst hm2
      cases hcur : m.current_track_index with
      | none =>
          intro i h
          rw [(hcurNone hcur).1] at h
          exact nomatch h
      | some c =>
          by_cases hck : c = k
          · intro i h
            rw [hck] at hcur
            rw [(hcurK hcur).1] at h
            exact nomatch h
          · intro i h
            obtain ⟨-, hidx⟩ := hcurNe c hcur hck
            have hc := hm c hcur
            rw [htl, List.length_eraseIdx, if_pos hk]
            rw [hidx] at h
            injection h with h
            subst h
            by_cases hlast : m.tracklist.length - 1 ≤ c
            · rw [if_pos hlast]
              omega
            · rw [if_neg hlast]
              omega
    · exfalso
      -- with k out of range the handler panics: update returns none
      have : update lib m (.DeleteTrack k) = none := by
        cases hcur : m.current_track_index with
        | none => simp [update, hcur, hk]
        | some c =>
            by_cases hck : c = k
            · simp [update, hcur, hck, hk]
            · simp [update, hcur, hck, hk]
      rw [hupd] at this
      exact nomatch this

/-- C6 witness: a two-track layout with current index 1 satisfies the
invariant, and the three mutations behave as stated. -/
theorem tracklist_index_invariant_witness :
    layoutInv (clear_tracklist
      { current_track_index := some 1
        tracklist := [⟨"a", "a.mp3"⟩, ⟨"b", "b.mp3"⟩]
        audio_player := AudioPlayer.new }) ∧
    (clear_tracklist
      { current_track_index := some 1
        tracklist := [⟨"a", "a.mp3"⟩, ⟨"b", "b.mp3"⟩]
        audio_player := AudioPlayer.new }).current_track_index = none ∧
    (∀ f, layoutInv (try_importing_track_from_path
      { current_track_index := some 1
        tracklist := [⟨"a", "a.mp3"⟩, ⟨"b", "b.mp3"⟩]
        audio_player := AudioPlayer.new } f)) ∧
    (∀ lib k m', update lib
      { current_track_index := some 1
        tracklist := [⟨"a", "a.mp3"⟩, ⟨"b", "b.mp3"⟩]
        audio_player := AudioPlayer.new } (.DeleteTrack k) = some m' → layoutInv m') :=
  tracklist_index_invariant
    { current_track_index := some 1
      tracklist := [⟨"a", "a.mp3"⟩, ⟨"b", "b.mp3"⟩]
      audio_player := AudioPlayer.new }
    (by intro i h; injection h with h; subst h; decide)

/-! ### C3 / C10 — the advance monitor tick (RedrawTrackPos) -/

/-- Shared helper: on a `RedrawTrackPos` tick with a valid current index and
the advance condition satisfied, the handler moves the index to
`(i + 1) mod length` and starts playing that entry. -/
lemma redraw_advances (lib : String → ℕ) (m : MainLayout) (i : ℕ)
    (hc : m.current_track_index = some i) (hlen : i < m.tracklist.length)
    (hadv : get_current_sound_position m.audio_player + 1/100
      ≥ get_current_sound_duration m.audio_player) :
    ∃ m' t, update lib m .RedrawTrackPos = some m' ∧
      m'.current_track_index = some ((i + 1) % m.tracklist.length) ∧
      m'.tracklist = m.tracklist ∧
      m.tracklist[(i + 1) % m.tracklist.length]? = some t ∧
      m'.audio_player.current_sound = some
        { handle := { path := t.path, playback_rate := m.audio_player.playback_rate,
                      paused := false, position := 0 }
          duration := ((lib t.path / 1000000000 : ℕ) : ℚ) } := by
  have hlen0 : 0 < m.tracklist.length := Nat.lt_of_le_of_lt (Nat.zero_le i) hlen
  have hieq : (if i + 1 = m.tracklist.length then 0 else i + 1)
      = (i + 1) % m.tracklist.length := by
    by_cases h : i + 1 = m.tracklist.length
    · simp [h, Nat.mod_self]
    · have hlt : i + 1 < m.tracklist.length := Nat.lt_of_le_of_ne hlen h
      simp [h, Nat.mod_eq_of_lt hlt]
  have hi1lt : (i + 1) % m.tracklist.length < m.tracklist.length :=
    Nat.mod_lt _ hlen0
  have ht : m.tracklist[(i + 1) % m.tracklist.length]?
      = some (m.tracklist.get ⟨(i + 1) % m.tracklist.length, hi1lt⟩) :=
    List.getElem?_eq_getElem hi1lt
  refine ⟨⟨some ((i + 1) % m.tracklist.length), m.tracklist,
      play lib m.audio_player (m.tracklist.get ⟨(i + 1) % m.tracklist.length, hi1lt⟩).path⟩,
    m.tracklist.get ⟨(i + 1) % m.tracklist.length, hi1lt⟩, ?_, rfl, rfl, ht, ?_⟩
  · simp only [update, hc, hieq, ht, ge_iff_le, if_pos hadv]
  · exact play_current_sound lib m.audio_player _

/-- C3. On a monitor tick (`RedrawTrackPos`) with a current index `i` set and
`position + 0.01 ≥ duration`, the current index becomes
`(i + 1) mod length` — in particular 0 when `i` was the last index — and that
next track's session is started. -/
theorem advance_monitor_wraparound (lib : String → ℕ) (m : MainLayout) (i : ℕ)
    (hc : m.current_track_index = some i) (hlen : i < m.tracklist.length)
    (hadv : get_current_sound_position m.audio_player + 1/100
      ≥ get_current_sound_duration m.audio_player) :
    ∃ m' t, update lib m .RedrawTrackPos = some m' ∧
      m'.current_track_index = some ((i + 1) % m.tracklist.length) ∧
      (i + 1 = m.tracklist.length → m'.current_track_index = some 0) ∧
      m.tracklist[(i + 1) % m.tracklist.length]? = some t ∧
      m'.tracklist = m.tracklist ∧
      (∃ s, m'.audio_player.current_sound = some s ∧ s.handle.path = t.path) := by
  obtain ⟨m', t, hupd, hidx, htl, ht, hsound⟩ := redraw_advances lib m i hc hlen hadv
  refine ⟨m', t, hupd, hidx, ?_, ht, htl, ⟨_, hsound, rfl⟩⟩
  intro hlast
  rw [hidx, hlast, Nat.mod_self]

/-- C3 witness: tracklist `[a, b]`, current index 1 (the last), no active
sound (position and duration both 0, so the condition holds): the index
wraps to `(1 + 1) mod 2 = 0` and track `a` starts. -/
theorem advance_monitor_wraparound_witness :
    ((some 1 : Option ℕ) = some 1) ∧ (1 < 2) ∧
    (∃ m' t, update (fun _ => 0)
        { current_track_index := some 1
          tracklist := [⟨"a", "a.mp3"⟩, ⟨"b", "b.mp3"⟩]
          audio_player := AudioPlayer.new } .RedrawTrackPos = some m' ∧
      m'.current_track_index = some ((1 + 1) % 2) ∧
      (1 + 1 = 2 → m'.current_track_index = some 0) ∧
      ([⟨"a", "a.mp3"⟩, ⟨"b", "b.mp3"⟩] : List TrackInfo)[(1 + 1) % 2]? = some t ∧
      m'.tracklist = [⟨"a", "a.mp3"⟩, ⟨"b", "b.mp3"⟩] ∧
      (∃ s, m'.audio_player.current_sound = some s ∧ s.handle.path = t.path)) :=
  ⟨rfl, by decide,
    advance_monitor_wraparound (fun _ => 0)
      { current_track_index := some 1
        tracklist := [⟨"a", "a.mp3"⟩, ⟨"b", "b.mp3"⟩]
        audio_player := AudioPlayer.new } 1 rfl (by decide)
      (by norm_num [get_current_sound_position, get_current_sound_duration, AudioPlayer.new])⟩

/-- C10. With a current track set but no active session (e.g. after
`stop()`), both getters return 0, the advance condition `0 + 0.01 ≥ 0` holds
on the very next tick, and the tick advances to and starts the next track:
stopping with a track selected does not keep the player stopped. -/
theorem stopped_with_track_advances (lib : String → ℕ) (m : MainLayout) (i : ℕ)
    (hc : m.current_track_index = some i) (hlen : i < m.tracklist.length)
    (hs : m.audio_player.current_sound = none) :
    get_current_sound_position m.audio_player = 0 ∧
    get_current_sound_duration m.audio_player = 0 ∧
    ∃ m' t, update lib m .RedrawTrackPos = some m' ∧
      m'.current_track_index = some ((i + 1) % m.tracklist.length) ∧
      m.tracklist[(i + 1) % m.tracklist.length]? = some t ∧
      (∃ s, m'.audio_player.current_sound = some s ∧ s.handle.path = t.path ∧
        s.handle.paused = false) := by
  have hpos : get_current_sound_position m.audio_player = 0 := by
    simp [get_current_sound_position, hs]
  have hdur : get_current_sound_duration m.audio_player = 0 := by
    simp [get_current_sound_duration, hs]
  have hadv : get_current_sound_position m.audio_player + 1/100
      ≥ get_current_sound_duration m.audio_player := by
    rw [hpos, hdur]
    norm_num
  obtain ⟨m', t, hupd, hidx, htl, ht, hsound⟩ := redraw_advances lib m i hc hlen hadv
  exact ⟨hpos, hdur, m', t, hupd, hidx, ht, ⟨_, hsound, rfl, rfl⟩⟩

/-- C10 witness: one stopped track `[a]` with current index 0: the tick wraps
`(0 + 1) mod 1 = 0` and restarts track `a`. -/
theorem stopped_with_track_advances_witness :
    get_current_sound_position AudioPlayer.new = 0 ∧
    get_current_sound_duration AudioPlayer.new = 0 ∧
    ∃ m' t, update (fun _ => 0)
        { current_track_index := some 0
          tracklist := [⟨"a", "a.mp3"⟩]
          audio_player := AudioPlayer.new } .RedrawTrackPos = some m' ∧
      m'.current_track_index = some ((0 + 1) % 1) ∧
      ([⟨"a", "a.mp3"⟩] : List TrackInfo)[(0 + 1) % 1]? = some t ∧
      (∃ s, m'.audio_player.current_sound = some s ∧ s.handle.path = t.path ∧
        s.handle.paused = false) :=
  stopped_with_track_advances (fun _ => 0)
    { current_track_index := some 0
      tracklist := [⟨"a", "a.mp3"⟩]
      audio_player := AudioPlayer.new } 0 rfl (by decide) rfl

/-! ### C5 — rate persistence across track changes -/

/-- `set_playback_rate` stores the rate on the engine. -/
lemma set_playback_rate_rate (p : AudioPlayer) (r : ℚ) :
    (set_playback_rate p r).playback_rate = r := by
  cases h : p.current_sound <;> simp [set_playback_rate, h]

/-- C5. After `set_playback_rate r`, playing any track yields a session whose
stream carries rate `r` with no further `set_playback_rate` call, and the
rate getter still returns `r`; in general a new session re-applies the
engine's persisted rate. -/
theorem rate_persistence_across_play (lib : String → ℕ) (p : AudioPlayer) (r : ℚ)
    (path : String) :
    get_playback_rate (play lib (set_playback_rate p r) path) = r ∧
    (∃ s, (play lib (set_playback_rate p r) path).current_sound = some s ∧
      s.handle.playback_rate = r ∧ s.handle.path = path) ∧
    (∀ q : AudioPlayer, ∃ s, (play lib q path).current_sound = some s ∧
      s.handle.playback_rate = q.playback_rate) := by
  refine ⟨?_, ?_, ?_⟩
  · rw [get_playback_rate, play_playback_rate, set_playback_rate_rate]
  · refine ⟨_, play_current_sound lib (set_playback_rate p r) path, ?_, rfl⟩
    simp [set_playback_rate_rate]
  · intro q
    exact ⟨_, play_current_sound lib q path, rfl⟩

/-! ### C9 — stored duration is the stream duration truncated to seconds -/

/-- C9. The duration stored for a new session (and returned by the duration
getter) is `duration.as_secs()` — the stream's duration in nanoseconds
divided by 10^9 with truncating integer division, i.e. the floor of the
duration in seconds — so it is at most the exact duration and less than one
second shorter. -/
theorem duration_truncated_to_seconds (lib : String → ℕ) (p : AudioPlayer)
    (path : String) :
    get_current_sound_duration (play lib p path) = ((lib path / 1000000000 : ℕ) : ℚ) ∧
    get_current_sound_duration (play lib p path)
      = ((⌊(lib path : ℚ) / 1000000000⌋ : ℤ) : ℚ) ∧
    get_current_sound_duration (play lib p path) ≤ (lib path : ℚ) / 1000000000 ∧
    (lib path : ℚ) / 1000000000 - get_current_sound_duration (play lib p path) < 1 := by
  have hget : get_current_sound_duration (play lib p path)
      = ((lib path / 1000000000 : ℕ) : ℚ) := by
    rw [get_current_sound_duration, play_current_sound]
  have hfloor : ⌊(lib path : ℚ) / 1000000000⌋ = ((lib path / 1000000000 : ℕ) : ℤ) := by
    have h := Rat.floor_intCast_div_natCast (lib path : ℤ) 1000000000
    push_cast at h
    rw [h, Int.natCast_div]
    norm_num
  refine ⟨hget, ?_, ?_, ?_⟩
  · rw [hget, hfloor]
    norm_cast
  · rw [hget]
    exact_mod_cast Nat.cast_div_le
  · rw [hget]
    have h1 := Int.lt_floor_add_one ((lib path : ℚ) / 1000000000)
    rw [hfloor] at h1
    have h2 : ((((lib path / 1000000000 : ℕ) : ℤ)) : ℚ)
        = ((lib path / 1000000000 : ℕ) : ℚ) := by norm_cast
    rw [h2] at h1
    linarith

/-! ### Decode-loop step lemmas -/

/-- Running out of events returns the buffer. -/
lemma decodeLoop_nil (W tid : ℕ) (win : List ℚ) (wave : List ℕ) :
    decodeLoop W tid [] win wave = wave := rfl

/-- A matching decoded packet that fills the window flushes it: the window is
averaged, cleared, and the quantized byte appended. -/
lemma decodeLoop_flush_step (W tid : ℕ) (samples : List ℚ) (rest : List StreamEvent)
    (win : List ℚ) (wave : List ℕ) (h : W ≤ win.length + 1) :
    decodeLoop W tid (.packet tid (.decoded samples) :: rest) win wave
      = decodeLoop W tid rest []
          (wave ++ [satCastU8 (winMean (win ++ [meanAbs samples]) * 2 * 255)]) := by
  have hguard : ¬(tid ≠ tid) := fun hh => hh rfl
  have hfull : W ≤ (win ++ [meanAbs samples]).length := by
    simpa using h
  simp only [decodeLoop, if_neg hguard, if_pos hfull]

/-- A matching decoded packet that does not yet fill the window only
accumulates its mean. -/
lemma decodeLoop_accum_step (W tid : ℕ) (samples : List ℚ) (rest : List StreamEvent)
    (win : List ℚ) (wave : List ℕ) (h : win.length + 1 < W) :
    decodeLoop W tid (.packet tid (.decoded samples) :: rest) win wave
      = decodeLoop W tid rest (win ++ [meanAbs samples]) wave := by
  have hguard : ¬(tid ≠ tid) := fun hh => hh rfl
  have hfull : ¬(W ≤ (win ++ [meanAbs samples]).length) := by
    simp only [List.length_append, List.length_cons, List.length_nil]
    omega
  simp only [decodeLoop, if_neg hguard, if_neg hfull]

/-- A packet of another track is skipped. -/
lemma decodeLoop_skip_mismatch (W tid t : ℕ) (res : DecodeResult)
    (rest : List StreamEvent) (win : List ℚ) (wave : List ℕ) (ht : t ≠ tid) :
    decodeLoop W tid (.packet t res :: rest) win wave
      = decodeLoop W tid rest win wave := by
  simp only [decodeLoop, if_pos ht]

/-- A per-packet decode I/O error is skipped (`continue`). -/
lemma decodeLoop_skip_ioErr (W tid t : ℕ) (rest : List StreamEvent)
    (win : List ℚ) (wave : List ℕ) :
    decodeLoop W tid (.packet t .ioErr :: rest) win wave
      = decodeLoop W tid rest win wave := by
  by_cases ht : t ≠ tid
  · simp only [decodeLoop, if_pos ht]
  · simp only [decodeLoop, if_neg ht]

/-- A per-packet decode error is skipped (`continue`). -/
lemma decodeLoop_skip_decodeErr (W tid t : ℕ) (rest : List StreamEvent)
    (win : List ℚ) (wave : List ℕ) :
    decodeLoop W tid (.packet t .decodeErr :: rest) win wave
      = decodeLoop W tid rest win wave := by
  by_cases ht : t ≠ tid
  · simp only [decodeLoop, if_pos ht]
  · simp only [decodeLoop, if_neg ht]

/-- A fatal decode error on the selected track halts with the buffer so far. -/
lemma decodeLoop_halt_fatal (W tid : ℕ) (rest : List StreamEvent)
    (win : List ℚ) (wave : List ℕ) :
    decodeLoop W tid (.packet tid .fatalErr :: rest) win wave = wave := by
  have hguard : ¬(tid ≠ tid) := fun hh => hh rfl
  simp only [decodeLoop, if_neg hguard]

/-- If two event suffixes produce the same result from every state, so do
their extensions by a common prefix of events. -/
lemma decodeLoop_append_congr (W tid : ℕ) (es rest1 rest2 : List StreamEvent)
    (h : ∀ win wave, decodeLoop W tid rest1 win wave = decodeLoop W tid rest2 win wave) :
    ∀ (win : List ℚ) (wave : List ℕ),
      decodeLoop W tid (es ++ rest1) win wave = decodeLoop W tid (es ++ rest2) win wave := by
  induction es with
  | nil => exact h
  | cons ev es ih =>
      intro win wave
      cases ev with
      | resetRequired => simp [decodeLoop]
      | eof => simp [decodeLoop]
      | ioErr => simp [decodeLoop]
      | otherErr => simp [decodeLoop]
      | packet t res =>
          by_cases ht : t ≠ tid
          · rw [List.cons_append, List.cons_append,
              decodeLoop_skip_mismatch W tid t res _ _ _ ht,
              decodeLoop_skip_mismatch W tid t res _ _ _ ht]
            exact ih win wave
          · have ht2 : t = tid := not_not.mp ht
            subst ht2
            cases res with
            | decoded samples =>
                by_cases hw : W ≤ win.length + 1
                · rw [List.cons_append, List.cons_append,
                    decodeLoop_flush_step W t samples _ _ _ hw,
                    decodeLoop_flush_step W t samples _ _ _ hw]
                  exact ih _ _
                · have hlt : win.length + 1 < W := lt_of_not_ge hw
                  rw [List.cons_append, List.cons_append,
                    decodeLoop_accum_step W t samples _ _ _ hlt,
                    decodeLoop_accum_step W t samples _ _ _ hlt]
                  exact ih _ _
            | ioErr =>
                rw [List.cons_append, List.cons_append,
                  decodeLoop_skip_ioErr, decodeLoop_skip_ioErr]
                exact ih win wave
            | decodeErr =>
                rw [List.cons_append, List.cons_append,
                  decodeLoop_skip_decodeErr, decodeLoop_skip_decodeErr]
                exact ih win wave
            | fatalErr =>
                rw [List.cons_append, List.cons_append,
                  decodeLoop_halt_fatal, decodeLoop_halt_fatal]

/-- The decode loop only ever appends to the buffer it was given. -/
lemma decodeLoop_extends (W tid : ℕ) :
    ∀ (es : List StreamEvent) (win : List ℚ) (wave : List ℕ),
      ∃ tl, decodeLoop W tid es win wave = wave ++ tl := by
  intro es
  induction es with
  | nil => exact fun win wave => ⟨[], by simp [decodeLoop]⟩
  | cons ev es ih =>
      intro win wave
      cases ev with
      | resetRequired => exact ⟨[], by simp [decodeLoop]⟩
      | eof => exact ⟨[], by simp [decodeLoop]⟩
      | ioErr => exact ⟨[], by simp [decodeLoop]⟩
      | otherErr => exact ⟨[], by simp [decodeLoop]⟩
      | packet t res =>
          by_cases ht : t ≠ tid
          · rw [decodeLoop_skip_mismatch W tid t res _ _ _ ht]
            exact ih win wave
          · have ht2 : t = tid := not_not.mp ht
            subst ht2
            cases res with
            | decoded samples =>
                by_cases hw : W ≤ win.length + 1
                · rw [decodeLoop_flush_step W t samples _ _ _ hw]
                  obtain ⟨tl, htl⟩ :=
                    ih [] (wave ++ [satCastU8 (winMean (win ++ [meanAbs samples]) * 2 * 255)])
                  exact ⟨[satCastU8 (winMean (win ++ [meanAbs samples]) * 2 * 255)] ++ tl,
                    by rw [htl, List.append_assoc]⟩
                · have hlt : win.length + 1 < W := lt_of_not_ge hw
                  rw [decodeLoop_accum_step W t samples _ _ _ hlt]
                  exact ih _ wave
            | ioErr =>
                rw [decodeLoop_skip_ioErr]
                exact ih win wave
            | decodeErr =>
                rw [decodeLoop_skip_decodeErr]
                exact ih win wave
            | fatalErr =>
                rw [decodeLoop_halt_fatal]
                exact ⟨[], by simp⟩

/-! ### C7 — decode-loop error policy -/

/-- C7. In any run of the decode loop: a reset-required error, an unexpected
end of stream, any other I/O error, any other demux error, or a fatal decode
error on the selected track terminates the loop at that point, leaving
exactly the buffer produced by the events before it; per-packet decode and
decode-I/O errors are skipped as if absent; and the resulting buffer always
extends the starting buffer — partial output is never discarded. -/
theorem wave_error_policy (W tid t : ℕ) (es rest : List StreamEvent)
    (win : List ℚ) (wave : List ℕ) :
    (decodeLoop W tid (es ++ .resetRequired :: rest) win wave
      = decodeLoop W tid es win wave) ∧
    (decodeLoop W tid (es ++ .eof :: rest) win wave
      = decodeLoop W tid es win wave) ∧
    (decodeLoop W tid (es ++ .ioErr :: rest) win wave
      = decodeLoop W tid es win wave) ∧
    (decodeLoop W tid (es ++ .otherErr :: rest) win wave
      = decodeLoop W tid es win wave) ∧
    (decodeLoop W tid (es ++ .packet tid .fatalErr :: rest) win wave
      = decodeLoop W tid es win wave) ∧
    (decodeLoop W tid (es ++ .packet t .decodeErr :: rest) win wave
      = decodeLoop W tid (es ++ rest) win wave) ∧
    (decodeLoop W tid (es ++ .packet t .ioErr :: rest) win wave
      = decodeLoop W tid (es ++ rest) win wave) ∧
    (∃ tl, decodeLoop W tid es win wave = wave ++ tl) := by
  have halt : ∀ (ev : StreamEvent),
      (∀ w v, decodeLoop W tid (ev :: rest) w v = decodeLoop W tid ([] : List StreamEvent) w v) →
      decodeLoop W tid (es ++ ev :: rest) win wave = decodeLoop W tid es win wave := by
    intro ev hev
    have h := decodeLoop_append_congr W tid es (ev :: rest) [] hev win wave
    rwa [List.append_nil] at h
  refine ⟨?_, ?_, ?_, ?_, ?_, ?_, ?_, decodeLoop_extends W tid es win wave⟩
  · exact halt _ (fun w v => rfl)
  · exact halt _ (fun w v => rfl)
  · exact halt _ (fun w v => rfl)
  · exact halt _ (fun w v => rfl)
  · exact halt _ (fun w v => decodeLoop_halt_fatal W tid rest w v)
  · exact decodeLoop_append_congr W tid es _ rest
      (fun w v => decodeLoop_skip_decodeErr W tid t rest w v) win wave
  · exact decodeLoop_append_congr W tid es _ rest
      (fun w v => decodeLoop_skip_ioErr W tid t rest w v) win wave

/-! ### C4 — window quantization -/

/-- Consecutive matching decoded packets that exactly fill the window flush
it once: the means accumulate and the quantized byte of their window average
is appended. -/
lemma decodeLoop_replicate_flush (W tid : ℕ) (s : List ℚ) :
    ∀ (k : ℕ) (win : List ℚ) (wave : List ℕ) (rest : List StreamEvent),
      1 ≤ k → win.length + k = W →
      decodeLoop W tid (List.replicate k (.packet tid (.decoded s)) ++ rest) win wave
        = decodeLoop W tid rest []
            (wave ++ [satCastU8 (winMean (win ++ List.replicate k (meanAbs s)) * 2 * 255)]) := by
  intro k
  induction k with
  | zero => intro win wave rest h1 _; exact absurd h1 (by omega)
  | succ k ih =>
      intro win wave rest _ hlen
      cases Nat.eq_zero_or_pos k with
      | inl hk0 =>
          subst hk0
          rw [List.replicate_one, List.singleton_append,
            decodeLoop_flush_step W tid s rest win wave (by omega)]
          rfl
      | inr hk1 =>
          rw [List.replicate_succ, List.cons_append,
            decodeLoop_accum_step W tid s _ win wave (by omega)]
          have h := ih (win ++ [meanAbs s]) wave rest hk1 (by simp; omega)
          rw [h, List.append_assoc]
          rfl

/-- C4, counterexample. A run of the sound_data.rs analyzer (window size 20)
whose 20 packets all have mean absolute sample value `0.2999` appends the
byte 152 — truncation of `0.2999 * 2 * 255 = 152.949` — whereas the claim's
`round(average * 2 * 255)` is 153. -/
theorem wave_byte_round_counterexample :
    decodeLoop packet_count_to_average 0
      (List.replicate 20 (.packet 0 (.decoded [2999/10000]))) [] [] = [152] ∧
    round ((2999/10000 : ℚ) * 2 * 255) = 153 := by
  constructor
  · have h := decodeLoop_replicate_flush packet_count_to_average 0 [2999/10000]
      20 [] [] [] (by norm_num) (by norm_num [packet_count_to_average])
    rw [List.append_nil] at h
    rw [h, decodeLoop_nil]
    norm_num [meanAbs, winMean, satCastU8, List.sum_replicate, abs_of_nonneg, min_def]
    rfl
  · rw [round_eq]
    norm_num

/-- C4, amended. Each time a matching decoded packet completes a window of
`W` per-packet mean-absolute-sample values, the window is averaged and
cleared, and the appended byte is `average * 2 * 255` saturating-cast to a
byte — truncated toward zero and clamped to `[0, 255]` (Rust `as u8`), not
rounded to nearest. -/
theorem wave_window_quantization (W tid : ℕ) (samples : List ℚ)
    (rest : List StreamEvent) (win : List ℚ) (wave : List ℕ)
    (h : win.length + 1 = W) :
    decodeLoop W tid (.packet tid (.decoded samples) :: rest) win wave
      = decodeLoop W tid rest []
          (wave ++ [satCastU8 (winMean (win ++ [meanAbs samples]) * 2 * 255)]) :=
  decodeLoop_flush_step W tid samples rest win wave (le_of_eq h.symm)

/-- C4 witness: window size 1, a single packet with sample 1/2 flushes
immediately. -/
theorem wave_window_quantization_witness :
    (([] : List ℚ).length + 1 = 1) ∧
    decodeLoop 1 0 [.packet 0 (.decoded [1/2])] [] []
      = decodeLoop 1 0 [] []
          ([] ++ [satCastU8 (winMean ([] ++ [meanAbs [1/2]]) * 2 * 255)]) :=
  ⟨rfl, wave_window_quantization 1 0 [1/2] [] [] [] rfl⟩

/-! ### C8 — move up / move down with wraparound (modelled from the spec) -/

/-- Position `i` of the swapped list holds the old entry at `j`. -/
lemma listSwap_fst {α : Type} (l : List α) (i j : ℕ) (hi : i < l.length)
    (hj : j < l.length) (hij : j ≠ i) : (listSwap l i j)[i]? = l[j]? := by
  simp only [listSwap, List.getElem?_eq_getElem hi, List.getElem?_eq_getElem hj]
  rw [List.getElem?_set_ne hij, List.getElem?_set_self hi]

/-- Position `j` of the swapped list holds the old entry at `i`. -/
lemma listSwap_snd {α : Type} (l : List α) (i j : ℕ) (hi : i < l.length)
    (hj : j < l.length) : (listSwap l i j)[j]? = l[i]? := by
  simp only [listSwap, List.getElem?_eq_getElem hi, List.getElem?_eq_getElem hj]
  rw [List.getElem?_set_self (by rw [List.length_set]; exact hj)]

/-- Positions other than `i` and `j` are untouched by the swap. -/
lemma listSwap_other {α : Type} (l : List α) (i j k : ℕ) (hk1 : k ≠ i) (hk2 : k ≠ j) :
    (listSwap l i j)[k]? = l[k]? := by
  cases hii : l[i]? with
  | none => simp [listSwap, hii]
  | some a =>
      cases hjj : l[j]? with
      | none => simp [listSwap, hii, hjj]
      | some b =>
          simp only [listSwap, hii, hjj]
          rw [List.getElem?_set_ne (Ne.symm hk2), List.getElem?_set_ne (Ne.symm hk1)]

/-- C8 (spec-modelled). For a tracklist of length `N ≥ 2`: `move_track_up 0`
swaps entries 0 and `N-1` and `move_track_down (N-1)` swaps entries `N-1`
and 0 (wraparound at both ends), both are no-ops on lists with at most one
entry, and the current index follows the moved entry (the moved-from index
goes to the target, the target index to the vacated slot). -/
theorem move_wraparound (ts : List TrackInfo) (cur : Option ℕ) (h2 : 2 ≤ ts.length) :
    ((move_track_up ts cur 0).1)[0]? = ts[ts.length - 1]? ∧
    ((move_track_up ts cur 0).1)[ts.length - 1]? = ts[0]? ∧
    (∀ k, k ≠ 0 → k ≠ ts.length - 1 → ((move_track_up ts cur 0).1)[k]? = ts[k]?) ∧
    (cur = some 0 → (move_track_up ts cur 0).2 = some (ts.length - 1)) ∧
    (cur = some (ts.length - 1) → (move_track_up ts cur 0).2 = some 0) ∧
    (cur ≠ some 0 → cur ≠ some (ts.length - 1) → (move_track_up ts cur 0).2 = cur) ∧
    ((move_track_down ts cur (ts.length - 1)).1)[ts.length - 1]? = ts[0]? ∧
    ((move_track_down ts cur (ts.length - 1)).1)[0]? = ts[ts.length - 1]? ∧
    (∀ k, k ≠ 0 → k ≠ ts.length - 1 →
      ((move_track_down ts cur (ts.length - 1)).1)[k]? = ts[k]?) ∧
    (cur = some (ts.length - 1) → (move_track_down ts cur (ts.length - 1)).2 = some 0) ∧
    (cur = some 0 → (move_track_down ts cur (ts.length - 1)).2 = some (ts.length - 1)) ∧
    (cur ≠ some 0 → cur ≠ some (ts.length - 1) →
      (move_track_down ts cur (ts.length - 1)).2 = cur) ∧
    (∀ (ts2 : List TrackInfo) (cur2 : Option ℕ) (i : ℕ), ts2.length ≤ 1 →
      move_track_up ts2 cur2 i = (ts2, cur2) ∧ move_track_down ts2 cur2 i = (ts2, cur2)) := by
  have hlen : ¬(ts.length ≤ 1) := by omega
  have h0 : 0 < ts.length := by omega
  have hN : ts.length - 1 < ts.length := by omega
  have hne : ts.length - 1 ≠ 0 := by omega
  have hup : move_track_up ts cur 0
      = (listSwap ts 0 (ts.length - 1),
         if cur = some 0 then some (ts.length - 1)
         else if cur = some (ts.length - 1) then some 0 else cur) := by
    simp [move_track_up, hlen]
  have hdn : move_track_down ts cur (ts.length - 1)
      = (listSwap ts (ts.length - 1) 0,
         if cur = some (ts.length - 1) then some 0
         else if cur = some 0 then some (ts.length - 1) else cur) := by
    have hj : ts.length - 1 + 1 = ts.length := by omega
    simp [move_track_down, hlen, hj]
  refine ⟨?_, ?_, ?_, ?_, ?_, ?_, ?_, ?_, ?_, ?_, ?_, ?_, ?_⟩
  · rw [hup]; exact listSwap_fst ts 0 (ts.length - 1) h0 hN hne
  · rw [hup]; exact listSwap_snd ts 0 (ts.length - 1) h0 hN
  · intro k hk0 hkN; rw [hup]; exact listSwap_other ts 0 (ts.length - 1) k hk0 hkN
  · intro h; rw [hup]; simp [h]
  · intro h; rw [hup]; simp [h, hne]
  · intro hA hB; rw [hup]; simp [hA, hB]
  · rw [hdn]; exact listSwap_fst ts (ts.length - 1) 0 hN h0 (Ne.symm hne)
  · rw [hdn]; exact listSwap_snd ts (ts.length - 1) 0 hN h0
  · intro k hk0 hkN; rw [hdn]; exact listSwap_other ts (ts.length - 1) 0 k hkN hk0
  · intro h; rw [hdn]; simp [h]
  · intro h; rw [hdn]; simp [h, Ne.symm hne]
  · intro hA hB; rw [hdn]; simp [hA, hB]
  · intro ts2 cur2 i hle
    constructor <;> simp [move_track_up, move_track_down, hle]

/-- C8 witness: on `[a, b, c]` with current index 0, moving index 0 up swaps
entries 0 and 2 and the current index follows to 2. -/
theorem move_wraparound_witness :
    (2 ≤ ([⟨"a", "a.mp3"⟩, ⟨"b", "b.mp3"⟩, ⟨"c", "c.mp3"⟩] : List TrackInfo).length) ∧
    (((move_track_up [⟨"a", "a.mp3"⟩, ⟨"b", "b.mp3"⟩, ⟨"c", "c.mp3"⟩] (some 0) 0).1)[0]?
        = ([⟨"a", "a.mp3"⟩, ⟨"b", "b.mp3"⟩, ⟨"c", "c.mp3"⟩] : List TrackInfo)[2]? ∧
      ((move_track_up [⟨"a", "a.mp3"⟩, ⟨"b", "b.mp3"⟩, ⟨"c", "c.mp3"⟩] (some 0) 0).1)[2]?
        = ([⟨"a", "a.mp3"⟩, ⟨"b", "b.mp3"⟩, ⟨"c", "c.mp3"⟩] : List TrackInfo)[0]? ∧
      (∀ k, k ≠ 0 → k ≠ 2 →
        ((move_track_up [⟨"a", "a.mp3"⟩, ⟨"b", "b.mp3"⟩, ⟨"c", "c.mp3"⟩] (some 0) 0).1)[k]?
          = ([⟨"a", "a.mp3"⟩, ⟨"b", "b.mp3"⟩, ⟨"c", "c.mp3"⟩] : List TrackInfo)[k]?) ∧
      ((some 0 : Option ℕ) = some 0 →
        (move_track_up [⟨"a", "a.mp3"⟩, ⟨"b", "b.mp3"⟩, ⟨"c", "c.mp3"⟩] (some 0) 0).2
          = some 2) ∧
      ((some 0 : Option ℕ) = some 2 →
        (move_track_up [⟨"a", "a.mp3"⟩, ⟨"b", "b.mp3"⟩, ⟨"c", "c.mp3"⟩] (some 0) 0).2
          = some 0) ∧
      ((some 0 : Option ℕ) ≠ some 0 → (some 0 : Option ℕ) ≠ some 2 →
        (move_track_up [⟨"a", "a.mp3"⟩, ⟨"b", "b.mp3"⟩, ⟨"c", "c.mp3"⟩] (some 0) 0).2
          = some 0) ∧
      ((move_track_down [⟨"a", "a.mp3"⟩, ⟨"b", "b.mp3"⟩, ⟨"c", "c.mp3"⟩] (some 0) 2).1)[2]?
        = ([⟨"a", "a.mp3"⟩, ⟨"b", "b.mp3"⟩, ⟨"c", "c.mp3"⟩] : List TrackInfo)[0]? ∧
      ((move_track_down [⟨"a", "a.mp3"⟩, ⟨"b", "b.mp3"⟩, ⟨"c", "c.mp3"⟩] (some 0) 2).1)[0]?
        = ([⟨"a", "a.mp3"⟩, ⟨"b", "b.mp3"⟩, ⟨"c", "c.mp3"⟩] : List TrackInfo)[2]? ∧
      (∀ k, k ≠ 0 → k ≠ 2 →
        ((move_track_down [⟨"a", "a.mp3"⟩, ⟨"b", "b.mp3"⟩, ⟨"c", "c.mp3"⟩] (some 0) 2).1)[k]?
          = ([⟨"a", "a.mp3"⟩, ⟨"b", "b.mp3"⟩, ⟨"c", "c.mp3"⟩] : List TrackInfo)[k]?) ∧
      ((some 0 : Option ℕ) = some 2 →
        (move_track_down [⟨"a", "a.mp3"⟩, ⟨"b", "b.mp3"⟩, ⟨"c", "c.mp3"⟩] (some 0) 2).2
          = some 0) ∧
      ((some 0 : Option ℕ) = some 0 →
        (move_track_down [⟨"a", "a.mp3"⟩, ⟨"b", "b.mp3"⟩, ⟨"c", "c.mp3"⟩] (some 0) 2).2
          = some 2) ∧
      ((some 0 : Option ℕ) ≠ some 0 → (some 0 : Option ℕ) ≠ some 2 →
        (move_track_down [⟨"a", "a.mp3"⟩, ⟨"b", "b.mp3"⟩, ⟨"c", "c.mp3"⟩] (some 0) 2).2
          = some 0) ∧
      (∀ (ts2 : List TrackInfo) (cur2 : Option ℕ) (i : ℕ), ts2.length ≤ 1 →
        move_track_up ts2 cur2 i = (ts2, cur2) ∧
        move_track_down ts2 cur2 i = (ts2, cur2))) :=
  ⟨by decide,
    move_wraparound [⟨"a", "a.mp3"⟩, ⟨"b", "b.mp3"⟩, ⟨"c", "c.mp3"⟩] (some 0) (by decide)⟩

end TinyAudioPlayer
